import Mathlib

/-!
Verification of the horse-racing selector core (race.js, wheel.js, storage.js)
against its natural-language specification.

The JavaScript source is shallowly embedded: positions, velocities and times
are rationals (`ℚ`); the randomness that the source draws once at construction
(`Math.random` in `generateSpeedChanges` and `getRandomUserIndex`) is passed in
explicitly as parameters (a multiplier function, a stream of draws), so every
definition is a pure function of its inputs, exactly as the per-frame `update`
is deterministic once construction randomness is fixed.  DOM rendering, sound
and timer handles are outside the model: only the state fields and the values
the source computes are embedded.
-/

namespace HorseRacing

/-- One entry of the speed-change schedule (race.js `generateSpeedChanges`):
a time point and a velocity multiplier. -/
structure SpeedChange where
  time : ℚ
  multiplier : ℚ
deriving DecidableEq, Repr

/-- The per-horse motion state (race.js `HorseState` constructor, lines 9-30).
`index`, `userId`, `userName`, `color` are carried but never used by `update`,
so they are omitted; all numeric fields are kept. -/
structure HorseState where
  isWinner : Bool
  position : ℚ
  raceDistance : ℚ
  totalDuration : ℚ
  baseSpeed : ℚ
  velocity : ℚ
  speedChanges : List SpeedChange
  currentSpeedIndex : ℕ
  finalStretchStart : ℚ
deriving DecidableEq, Repr

/-- Insert a speed change into a list that is sorted ascending by time. -/
def insertByTime (c : SpeedChange) : List SpeedChange → List SpeedChange
  | [] => [c]
  | d :: rest =>
    if c.time ≤ d.time then c :: d :: rest else d :: insertByTime c rest

/-- Sort a schedule ascending by time (the `changes.sort((a, b) => a.time -
b.time)` of race.js line 52, as a structurally recursive insertion sort). -/
def sortByTime : List SpeedChange → List SpeedChange
  | [] => []
  | c :: rest => insertByTime c (sortByTime rest)

/-- race.js `generateSpeedChanges` (lines 35-53): `numChanges` entries at times
`(T/(numChanges+1))*(i+1)`, each with a multiplier drawn at construction
(modelled by the function `mult`; the source draws it uniformly from
`[0.6, 1.8]`), finally sorted ascending by time. -/
def generateSpeedChanges (totalDuration : ℚ) (numChanges : ℕ) (mult : ℕ → ℚ) :
    List SpeedChange :=
  sortByTime ((List.range numChanges).map fun (i : ℕ) =>
    { time := (totalDuration / ((numChanges : ℚ) + 1)) * ((i : ℚ) + 1)
      multiplier := mult i : SpeedChange })

/-- race.js `HorseState` constructor (lines 10-30): start position 50,
base speed `raceDistance / totalDuration`, final stretch at `0.7 * T`. -/
def mkHorseState (isWinner : Bool) (totalDuration raceDistance : ℚ)
    (speedChanges : List SpeedChange) : HorseState :=
  { isWinner := isWinner
    position := 50
    raceDistance := raceDistance
    totalDuration := totalDuration
    baseSpeed := raceDistance / totalDuration
    velocity := raceDistance / totalDuration
    speedChanges := speedChanges
    currentSpeedIndex := 0
    finalStretchStart := totalDuration * (7/10) }

/-- The `while` loop of race.js `update` (lines 64-69): starting from the
pending suffix of the schedule, replace the velocity by
`baseSpeed * multiplier` for every entry whose time has been reached, and
count how many entries were consumed. -/
def applyDue (baseSpeed elapsedTime : ℚ) : List SpeedChange → ℚ → ℚ × ℕ
  | [], v => (v, 0)
  | c :: rest, v =>
    if c.time ≤ elapsedTime then
      let r := applyDue baseSpeed elapsedTime rest (baseSpeed * c.multiplier)
      (r.1, r.2 + 1)
    else (v, 0)

/-- Phase 1 of race.js `update`: apply the due speed changes (lines 64-69). -/
def HorseState.speedPhase (s : HorseState) (elapsedTime : ℚ) : HorseState :=
  let r := applyDue s.baseSpeed elapsedTime
    (s.speedChanges.drop s.currentSpeedIndex) s.velocity
  { s with velocity := r.1, currentSpeedIndex := s.currentSpeedIndex + r.2 }

/-- Phase 2 of race.js `update`: `position += velocity * cappedDeltaTime`
(line 72). -/
def HorseState.movePhase (s : HorseState) (cappedDeltaTime : ℚ) : HorseState :=
  { s with position := s.position + s.velocity * cappedDeltaTime }

/-- Phase 3 of race.js `update` (lines 74-103): the winner's final-stretch
boost and floor clamp, or the non-winner slowdown and the 92%-of-distance
position cap. -/
def HorseState.stretchPhase (s : HorseState) (elapsedTime cappedDeltaTime : ℚ) :
    HorseState :=
  if s.isWinner = true ∧ s.finalStretchStart ≤ elapsedTime then
    let finalProgress :=
      (elapsedTime - s.finalStretchStart) / (s.totalDuration - s.finalStretchStart)
    let boost := 1 + finalProgress * (8/10)
    let pos := s.position + s.baseSpeed * cappedDeltaTime * boost
    let minPosition := 50 + s.raceDistance * (7/10 + finalProgress * (3/10))
    { s with position := if pos < minPosition then minPosition else pos }
  else if s.isWinner = false then
    let s2 :=
      if s.finalStretchStart ≤ elapsedTime then
        let finalProgress :=
          (elapsedTime - s.finalStretchStart) /
            (s.totalDuration - s.finalStretchStart)
        let slowdown := 1 - finalProgress * (1/4)
        { s with velocity := s.velocity * slowdown }
      else s
    let maxPosition := 50 + s2.raceDistance * (92/100)
    if maxPosition ≤ s2.position then
      { s2 with position := maxPosition, velocity := s2.baseSpeed * (15/100) }
    else s2
  else s

/-- Phase 4 of race.js `update` (lines 105-111): at `elapsedTime ≥ 0.95 * T`
the winner's position is raised to the finish coordinate if it is below it. -/
def HorseState.finishPhase (s : HorseState) (elapsedTime : ℚ) : HorseState :=
  if s.isWinner = true ∧ s.totalDuration * (95/100) ≤ elapsedTime then
    let targetPosition := 50 + s.raceDistance
    if s.position < targetPosition then { s with position := targetPosition }
    else s
  else s

/-- race.js `HorseState.update` (lines 58-112): delta capped at 50, then the
four phases in source order. -/
def HorseState.update (s : HorseState) (elapsedTime deltaTime : ℚ) : HorseState :=
  let cappedDeltaTime := min deltaTime 50
  ((((s.speedPhase elapsedTime).movePhase cappedDeltaTime).stretchPhase
      elapsedTime cappedDeltaTime).finishPhase elapsedTime)

theorem speedPhase_isWinner (s : HorseState) (e : ℚ) :
    (s.speedPhase e).isWinner = s.isWinner := rfl

theorem speedPhase_raceDistance (s : HorseState) (e : ℚ) :
    (s.speedPhase e).raceDistance = s.raceDistance := rfl

theorem speedPhase_totalDuration (s : HorseState) (e : ℚ) :
    (s.speedPhase e).totalDuration = s.totalDuration := rfl

theorem movePhase_isWinner (s : HorseState) (d : ℚ) :
    (s.movePhase d).isWinner = s.isWinner := rfl

theorem movePhase_raceDistance (s : HorseState) (d : ℚ) :
    (s.movePhase d).raceDistance = s.raceDistance := rfl

theorem movePhase_totalDuration (s : HorseState) (d : ℚ) :
    (s.movePhase d).totalDuration = s.totalDuration := rfl

theorem stretchPhase_isWinner (s : HorseState) (e d : ℚ) :
    (s.stretchPhase e d).isWinner = s.isWinner := by
  unfold HorseState.stretchPhase
  split
  · rfl
  · split
    · dsimp only
      split
      · split <;> rfl
      · split <;> rfl
    · rfl

theorem stretchPhase_raceDistance (s : HorseState) (e d : ℚ) :
    (s.stretchPhase e d).raceDistance = s.raceDistance := by
  unfold HorseState.stretchPhase
  split
  · rfl
  · split
    · dsimp only
      split
      · split <;> rfl
      · split <;> rfl
    · rfl

theorem stretchPhase_totalDuration (s : HorseState) (e d : ℚ) :
    (s.stretchPhase e d).totalDuration = s.totalDuration := by
  unfold HorseState.stretchPhase
  split
  · rfl
  · split
    · dsimp only
      split
      · split <;> rfl
      · split <;> rfl
    · rfl

/-- For a non-winner the stretch phase leaves the position at or below the
capped maximum `50 + 0.92 * raceDistance` (race.js lines 96-102: the cap is
tested after the move of line 72, so it holds whatever came before). -/
theorem stretchPhase_position_le (s : HorseState) (e d : ℚ)
    (hw : s.isWinner = false) :
    (s.stretchPhase e d).position ≤ 50 + s.raceDistance * (92/100) := by
  unfold HorseState.stretchPhase
  rw [if_neg (by simp [hw]), if_pos hw]
  dsimp only
  split
  · split
    · simp
    · simpa using le_of_not_le (by assumption)
  · split
    · simp
    · simpa using le_of_not_le (by assumption)

/-- The finish phase leaves a winner's position at or above the finish
coordinate `50 + raceDistance` whenever `elapsedTime ≥ 0.95 * T`
(race.js lines 105-111). -/
theorem finishPhase_position_ge (s : HorseState) (e : ℚ)
    (hw : s.isWinner = true) (he : s.totalDuration * (95/100) ≤ e) :
    50 + s.raceDistance ≤ (s.finishPhase e).position := by
  unfold HorseState.finishPhase
  rw [if_pos ⟨hw, he⟩]
  dsimp only
  split
  · rfl
  · exact le_of_not_lt (by assumption)

/-- The finish phase is the identity on non-winners. -/
theorem finishPhase_of_not_winner (s : HorseState) (e : ℚ)
    (hw : s.isWinner = false) : s.finishPhase e = s := by
  unfold HorseState.finishPhase
  rw [if_neg (by simp [hw])]

/-- A concrete winner state: duration 100, distance 900, one scheduled speed
change (time 50, multiplier 1.8, the top of the source's `[0.6, 1.8]` range). -/
def c1Horse : HorseState :=
  mkHorseState true 100 900 (generateSpeedChanges 100 1 fun _ => 9/5)

/-- C1 counterexample: for the winner `c1Horse` (duration `T = 100`, track
length `L = 900`, finish coordinate `50 + 900 = 950`), after updates at
elapsed times 50 and 100 the position at `t = T` is 2480, not the finish
coordinate: the `t ≥ 0.95 T` clamp only raises a position that is below the
finish, it does not pull an overshooting winner back to exactly the finish. -/
theorem winner_overshoots_finish :
    ((c1Horse.update 50 50).update 100 50).position = 2480 ∧
      ((c1Horse.update 50 50).update 100 50).position ≠ 50 + 900 ∧
      (100 : ℚ) * (95/100) ≤ 100 := by
  refine ⟨?_, ?_, by norm_num⟩ <;>
    norm_num [c1Horse, mkHorseState, generateSpeedChanges, sortByTime,
      insertByTime, HorseState.update, HorseState.speedPhase,
      HorseState.movePhase, HorseState.stretchPhase, HorseState.finishPhase,
      applyDue]

/-- C1 (amended): for every winner Motion Model state, an `update` call with
`elapsedTime ≥ 0.95 * totalDuration` leaves the position at least the finish
coordinate `50 + raceDistance` (race.js lines 105-111 raise it to the finish
when it is below; overshoot beyond the finish is kept). -/
theorem winner_update_reaches_finish (s : HorseState) (e d : ℚ)
    (hw : s.isWinner = true) (he : s.totalDuration * (95/100) ≤ e) :
    50 + s.raceDistance ≤ (s.update e d).position := by
  unfold HorseState.update
  set s3 := ((s.speedPhase e).movePhase (min d 50)).stretchPhase e (min d 50)
    with hs3
  have hw3 : s3.isWinner = true := by
    rw [hs3, stretchPhase_isWinner, movePhase_isWinner, speedPhase_isWinner, hw]
  have hr3 : s3.raceDistance = s.raceDistance := by
    rw [hs3, stretchPhase_raceDistance, movePhase_raceDistance,
      speedPhase_raceDistance]
  have ht3 : s3.totalDuration = s.totalDuration := by
    rw [hs3, stretchPhase_totalDuration, movePhase_totalDuration,
      speedPhase_totalDuration]
  have := finishPhase_position_ge s3 e hw3 (by rw [ht3]; exact he)
  rwa [hr3] at this

/-- C1 witness: the amended theorem applied to the concrete winner `c1Horse`
at elapsed time 100 ≥ 0.95 * 100. -/
theorem winner_update_reaches_finish_witness :
    50 + c1Horse.raceDistance ≤ (c1Horse.update 100 16).position :=
  winner_update_reaches_finish c1Horse 100 16 (by decide) (by norm_num [c1Horse, mkHorseState])

/-- A concrete non-winner state: duration 100, distance 900, one scheduled
speed change (time 50, multiplier 0.6, the bottom of the source's range). -/
def c3Horse : HorseState :=
  mkHorseState false 100 900 (generateSpeedChanges 100 1 fun _ => 3/5)

/-- C3 counterexample: the non-winner `c3Horse` (track length `L = 900`, start
offset 50), updated at elapsed times 25, 50, 75, 100 (a full race), ends at
position 5395/8 = 674.375, i.e. 624.375 past the start offset — strictly
below the claimed lower band `0.85 * L = 765`.  The code has no lower bound on
a non-winner's final position (and its cap is a fixed `0.92 * L`, not a
personal ceiling in `[0.85, 0.96]`). -/
theorem nonwinner_below_claimed_band :
    ((((c3Horse.update 25 25).update 50 25).update 75 25).update 100 25).position
        = 5395/8 ∧
      ((((c3Horse.update 25 25).update 50 25).update 75 25).update 100 25).position
          - 50 < 900 * (85/100) := by
  constructor <;>
    norm_num [c3Horse, mkHorseState, generateSpeedChanges, sortByTime,
      insertByTime, HorseState.update, HorseState.speedPhase,
      HorseState.movePhase, HorseState.stretchPhase, HorseState.finishPhase,
      applyDue]

/-- C3 (amended): after any `update` call, a non-winner's position is at most
`50 + 0.92 * raceDistance` (race.js lines 96-102), hence strictly below the
finish coordinate `50 + raceDistance` whenever the track length is positive;
there is no guaranteed lower band. -/
theorem nonwinner_position_capped (s : HorseState) (e d : ℚ)
    (hw : s.isWinner = false) :
    (s.update e d).position ≤ 50 + s.raceDistance * (92/100) ∧
      (0 < s.raceDistance → (s.update e d).position < 50 + s.raceDistance) := by
  unfold HorseState.update
  set s3 := ((s.speedPhase e).movePhase (min d 50)).stretchPhase e (min d 50)
    with hs3
  have hw2 : ((s.speedPhase e).movePhase (min d 50)).isWinner = false := by
    rw [movePhase_isWinner, speedPhase_isWinner, hw]
  have hw3 : s3.isWinner = false := by rw [hs3, stretchPhase_isWinner, hw2]
  have hcap : s3.position ≤ 50 + s.raceDistance * (92/100) := by
    have := stretchPhase_position_le ((s.speedPhase e).movePhase (min d 50)) e
      (min d 50) hw2
    rwa [movePhase_raceDistance, speedPhase_raceDistance] at this
  rw [finishPhase_of_not_winner s3 e hw3]
  refine ⟨hcap, fun hL => lt_of_le_of_lt hcap ?_⟩
  have : s.raceDistance * (92/100) < s.raceDistance * 1 := by
    exact mul_lt_mul_of_pos_left (by norm_num) hL
  linarith

/-- C3 witness: the amended theorem applied to the concrete non-winner
`c3Horse` with its positive track length 900. -/
theorem nonwinner_position_capped_witness :
    (c3Horse.update 100 25).position ≤ 50 + c3Horse.raceDistance * (92/100) ∧
      (c3Horse.update 100 25).position < 50 + c3Horse.raceDistance := by
  have h := nonwinner_position_capped c3Horse 100 25 (by decide)
  exact ⟨h.1, h.2 (by norm_num [c3Horse, mkHorseState])⟩

/-- A participant record (storage.js users: id, name, color, enabled).
`createdAt` is omitted (never read by the core). -/
structure UserRec where
  id : String
  name : String
  color : String
  enabled : Bool
deriving DecidableEq, Repr

/-- The re-roll `while` loop of race.js `getRandomUserIndex` (lines 431-435,
identical in wheel.js lines 372-376): while the drawn index equals the last
winner's index and fewer than 10 redraws have been made, draw again.  The
redraw made when `attempts = a` reads `draws (a + 1)`; `draws 0` is the
initial draw made before the loop.  The `attempts < 10` bound makes the loop
a total function: it never runs forever. -/
def reroll (lastIndex : ℕ) (draws : ℕ → ℕ) (index attempts : ℕ) : ℕ :=
  if h : index = lastIndex ∧ attempts < 10 then
    reroll lastIndex draws (draws (attempts + 1)) (attempts + 1)
  else index
termination_by 10 - attempts
decreasing_by omega

/-- race.js `Race.getRandomUserIndex` (lines 422-440; wheel.js 363-381 is the
same code): draw an index (the source draws `Math.floor(Math.random() * n)` —
modelled by the stream `draws` of values in `[0, n)`); if a last-selected id
is stored and found among the current users, re-roll while the draw equals
that user's index, up to 10 times, then return whatever index is held. -/
def getRandomUserIndex (users : List UserRec) (lastSelectedId : Option String)
    (draws : ℕ → ℕ) : ℕ :=
  let index := draws 0
  match lastSelectedId with
  | none => index
  | some lid =>
    match users.findIdx? (fun u => u.id == lid) with
    | none => index
    | some lastIndex => reroll lastIndex draws index 0

theorem reroll_of_ne (li : ℕ) (draws : ℕ → ℕ) (i a : ℕ) (h : i ≠ li) :
    reroll li draws i a = i := by
  rw [reroll]
  exact dif_neg fun hc => h hc.1

theorem reroll_of_fuel (li : ℕ) (draws : ℕ → ℕ) (i a : ℕ) (h : 10 ≤ a) :
    reroll li draws i a = i := by
  rw [reroll]
  exact dif_neg fun hc => by omega

theorem reroll_step (li : ℕ) (draws : ℕ → ℕ) (i a : ℕ) (h1 : i = li)
    (h2 : a < 10) :
    reroll li draws i a = reroll li draws (draws (a + 1)) (a + 1) := by
  conv_lhs => rw [reroll]
  exact dif_pos ⟨h1, h2⟩

/-- If the draws from position `a` up to just before `a + k` all equal the
forbidden index and the draw at `a + k ≤ 10` differs, the loop returns that
first differing draw. -/
theorem reroll_first_differ (li : ℕ) (draws : ℕ → ℕ) :
    ∀ (k a : ℕ), a + k ≤ 10 → (∀ j, a ≤ j → j < a + k → draws j = li) →
      draws (a + k) ≠ li → reroll li draws (draws a) a = draws (a + k)
  | 0, a, _, _, hne => reroll_of_ne li draws (draws a) a (by simpa using hne)
  | k + 1, a, hle, hall, hne => by
    have h1 : draws a = li := hall a le_rfl (by omega)
    rw [reroll_step li draws (draws a) a h1 (by omega)]
    have hkey : a + 1 + k = a + (k + 1) := by omega
    have := reroll_first_differ li draws k (a + 1) (by omega)
      (fun j hj1 hj2 => hall j (by omega) (by omega)) (by rw [hkey]; exact hne)
    rwa [hkey] at this

/-- If every draw up to index 10 equals the forbidden index, the loop exhausts
its 10 redraws and returns the final draw `draws 10` anyway. -/
theorem reroll_all_eq (li : ℕ) (draws : ℕ → ℕ) :
    ∀ (m a : ℕ), a + m = 10 → (∀ j, a ≤ j → j ≤ 10 → draws j = li) →
      reroll li draws (draws a) a = draws 10
  | 0, a, hm, _ => by
    have : a = 10 := by omega
    subst this
    exact reroll_of_fuel li draws (draws 10) 10 le_rfl
  | m + 1, a, hm, hall => by
    rw [reroll_step li draws (draws a) a (hall a le_rfl (by omega)) (by omega)]
    exact reroll_all_eq li draws m (a + 1) (by omega)
      fun j hj1 hj2 => hall j (by omega) hj2

/-- The loop only ever returns its current index or one of the draws, so it
stays below `n` whenever those do. -/
theorem reroll_bound (li : ℕ) (draws : ℕ → ℕ) (n : ℕ)
    (hd : ∀ k, draws k < n) :
    ∀ (m a i : ℕ), 10 - a ≤ m → i < n → reroll li draws i a < n
  | 0, a, i, hm, hi => by
    rw [reroll_of_fuel li draws i a (by omega)]
    exact hi
  | m + 1, a, i, hm, hi => by
    rw [reroll]
    split
    · exact reroll_bound li draws n hd m (a + 1) (draws (a + 1)) (by omega)
        (hd (a + 1))
    · exact hi

/-- C2: with a last-selected id `lid` stored and found at index `li` among the
users, and a stream of draws each in `[0, n)` (`n` the number of users), the
selection (1) returns an index in `[0, n)`; (2) accepts the first draw
outright when it differs from `li`; (3) in general returns the first of the
draws `0..10` that differs from `li`; (4) returns the 11th draw (`draws 10`)
when all eleven draws hit `li`, rather than looping forever; and (5) every
index below `n` is still reachable by some stream of draws, so every enabled
participant remains selectable. -/
theorem getRandomUserIndex_spec (users : List UserRec) (lid : String) (li : ℕ)
    (draws : ℕ → ℕ) (hfind : users.findIdx? (fun u => u.id == lid) = some li)
    (hd : ∀ k, draws k < users.length) :
    getRandomUserIndex users (some lid) draws < users.length ∧
      (draws 0 ≠ li → getRandomUserIndex users (some lid) draws = draws 0) ∧
      (∀ k, k ≤ 10 → (∀ j, j < k → draws j = li) → draws k ≠ li →
        getRandomUserIndex users (some lid) draws = draws k) ∧
      ((∀ j, j ≤ 10 → draws j = li) →
        getRandomUserIndex users (some lid) draws = draws 10) ∧
      (∀ i, i < users.length → ∃ d2 : ℕ → ℕ, (∀ k, d2 k < users.length) ∧
        getRandomUserIndex users (some lid) d2 = i) := by
  have hunfold : ∀ d : ℕ → ℕ, getRandomUserIndex users (some lid) d =
      reroll li d (d 0) 0 := by
    intro d
    unfold getRandomUserIndex
    dsimp only
    rw [hfind]
  refine ⟨?_, ?_, ?_, ?_, ?_⟩
  · rw [hunfold]
    exact reroll_bound li draws users.length hd 10 0 (draws 0) (by omega) (hd 0)
  · intro hne
    rw [hunfold]
    exact reroll_of_ne li draws (draws 0) 0 hne
  · intro k hk hall hne
    rw [hunfold]
    simpa using reroll_first_differ li draws k 0 (by omega)
      (fun j hj1 hj2 => hall j (by omega)) (by simpa using hne)
  · intro hall
    rw [hunfold]
    exact reroll_all_eq li draws 10 0 rfl fun j hj1 hj2 => hall j hj2
  · intro i hi
    refine ⟨fun _ => i, fun _ => hi, ?_⟩
    rw [hunfold]
    by_cases hil : i = li
    · subst hil
      exact reroll_all_eq i (fun _ => i) 10 0 rfl fun _ _ _ => rfl
    · exact reroll_of_ne li (fun _ => i) i 0 hil

/-- Three concrete users for the C2 witness. -/
def demoUsers : List UserRec :=
  [⟨"u1", "Ann", "#FF6B6B", true⟩, ⟨"u2", "Ben", "#4ECDC4", true⟩,
    ⟨"u3", "Cy", "#FFE66D", true⟩]

/-- C2 witness: the spec applied to three users with last winner `"u2"`
(index 1) and the draw stream `k % 3`. -/
theorem getRandomUserIndex_spec_witness :
    getRandomUserIndex demoUsers (some "u2") (fun k => k % 3) <
      demoUsers.length :=
  (getRandomUserIndex_spec demoUsers "u2" 1 (fun k => k % 3) (by decide)
    fun k => Nat.mod_lt k (by decide)).1

/-- One history entry (storage.js `addSpinEntry`, lines 229-235).  The
source also stores an `id` (a timestamp string) and a `timestamp`; neither is
read by any computation modelled here, so they are omitted. -/
structure HistEntry where
  userId : String
  userName : String
  spinNumber : ℕ
deriving DecidableEq, Repr

/-- One statistics record (storage.js `calculateStatistics`, lines 279-285):
win count, the duplicate `selections` counter, and the two streaks.  The
`user` back-reference and the percentage (computed afterwards) are kept
outside the record. -/
structure Stat where
  winCount : ℕ
  selections : ℕ
  currentStreak : ℕ
  longestStreak : ℕ
deriving DecidableEq, Repr

/-- The `stats` object of `calculateStatistics`, as an association list keyed
by participant id. -/
abbrev StatsMap := List (String × Stat)

/-- Reading `stats[id]` (missing key gives `none`, the source's `undefined`). -/
def lookupStat (stats : StatsMap) (id : String) : Option Stat :=
  (stats.find? fun p => p.1 == id).map Prod.snd

/-- Mutating `stats[id]` in place. -/
def updateStat (stats : StatsMap) (id : String) (f : Stat → Stat) : StatsMap :=
  stats.map fun p => if p.1 == id then (p.1, f p.2) else p

/-- storage.js lines 278-286: a zeroed stat record for each current user. -/
def initStats (users : List UserRec) : StatsMap :=
  users.map fun u =>
    (u.id, ({ winCount := 0, selections := 0,
              currentStreak := 0, longestStreak := 0 } : Stat))

/-- The mutable scan state of `calculateStatistics` (lines 289-290):
the `stats` object plus `lastUserId` and the running `currentStreak`. -/
structure StatsAcc where
  stats : StatsMap
  lastUserId : Option String
  currentStreak : Option (String × ℕ)
deriving DecidableEq, Repr

/-- storage.js lines 305-308: flush the running streak into that id's
longest-streak-so-far, guarded by `currentStreak && stats[currentStreak.userId]`. -/
def flushStreak (stats : StatsMap) (cs : Option (String × ℕ)) : StatsMap :=
  match cs with
  | some (uid, c) =>
    if (lookupStat stats uid).isSome then
      updateStat stats uid fun st =>
        { st with longestStreak := max st.longestStreak c }
    else stats
  | none => stats

/-- One iteration of the `history.forEach` of storage.js lines 292-313.  The
whole body sits inside `if (stats[entry.userId])`, so an entry whose id has no
stat record (a removed participant) is skipped entirely: no count, no streak
change, and `lastUserId` keeps its previous value. -/
def statsStep (acc : StatsAcc) (entry : HistEntry) : StatsAcc :=
  match lookupStat acc.stats entry.userId with
  | none => acc
  | some _ =>
    let stats1 := updateStat acc.stats entry.userId fun st =>
      { st with winCount := st.winCount + 1, selections := st.selections + 1 }
    if acc.lastUserId = some entry.userId then
      let cs := match acc.currentStreak with
        | none => some (entry.userId, 1)
        | some (uid, c) => some (uid, c + 1)
      { stats := stats1, lastUserId := some entry.userId, currentStreak := cs }
    else
      { stats := flushStreak stats1 acc.currentStreak,
        lastUserId := some entry.userId,
        currentStreak := some (entry.userId, 1) }

/-- storage.js lines 316-320: the final running streak becomes that id's
current streak and is flushed into its longest streak. -/
def finalizeStreak (acc : StatsAcc) : StatsMap :=
  match acc.currentStreak with
  | some (uid, c) =>
    if (lookupStat acc.stats uid).isSome then
      updateStat acc.stats uid fun st =>
        { st with currentStreak := c, longestStreak := max st.longestStreak c }
    else acc.stats
  | none => acc.stats

/-- storage.js `calculateStatistics` (lines 272-329) as a pure function of the
history and the current users it reads from storage (percentages are modelled
separately by `percentage`). -/
def calculateStatistics (history : List HistEntry) (users : List UserRec) :
    StatsMap :=
  finalizeStreak (history.foldl statsStep
    { stats := initStats users, lastUserId := none, currentStreak := none })

/-- storage.js line 325: `totalSpins > 0 ? ((winCount / totalSpins) *
100).toFixed(1) : 0`, with `toFixed(1)` modelled as rounding to one decimal. -/
def percentage (winCount totalSpins : ℕ) : ℚ :=
  if 0 < totalSpins then
    round ((winCount : ℚ) / (totalSpins : ℚ) * 100 * 10) / 10
  else 0

/-- Participant A for the statistics claims. -/
def userA : UserRec := ⟨"A", "Alice", "#EF476F", true⟩

/-- Participant B for the statistics claims. -/
def userB : UserRec := ⟨"B", "Bob", "#06D6A0", true⟩

/-- The history `[A, A, B, A, A, A]` of the statistics round-trip claim. -/
def c5History : List HistEntry :=
  [⟨"A", "Alice", 1⟩, ⟨"A", "Alice", 2⟩, ⟨"B", "Bob", 3⟩,
    ⟨"A", "Alice", 4⟩, ⟨"A", "Alice", 5⟩, ⟨"A", "Alice", 6⟩]

/-- C5: on the history `[A, A, B, A, A, A]` with both participants present the
statistics report A: winCount 5, currentStreak 3, longestStreak 3; B:
winCount 1, currentStreak 0, longestStreak 1; and the one-decimal percentages
are 83.3 and 16.7, summing to 100 exactly. -/
theorem statistics_roundtrip :
    lookupStat (calculateStatistics c5History [userA, userB]) "A" =
      some { winCount := 5, selections := 5, currentStreak := 3,
             longestStreak := 3 } ∧
      lookupStat (calculateStatistics c5History [userA, userB]) "B" =
        some { winCount := 1, selections := 1, currentStreak := 0,
               longestStreak := 1 } ∧
      percentage 5 6 = 833/10 ∧ percentage 1 6 = 167/10 ∧
      percentage 5 6 + percentage 1 6 = 100 := by
  refine ⟨by decide, by decide, ?_, ?_, ?_⟩ <;>
    norm_num [percentage, round_eq]

theorem updateStat_keys (s : StatsMap) (id : String) (f : Stat → Stat) :
    (updateStat s id f).map Prod.fst = s.map Prod.fst := by
  induction s with
  | nil => rfl
  | cons p rest ih =>
    simp only [updateStat, List.map_cons] at ih ⊢
    rw [ih]
    congr 1
    split <;> rfl

theorem flushStreak_keys (s : StatsMap) (cs : Option (String × ℕ)) :
    (flushStreak s cs).map Prod.fst = s.map Prod.fst := by
  unfold flushStreak
  match cs with
  | none => rfl
  | some (uid, c) =>
    dsimp only
    split
    · exact updateStat_keys s uid _
    · rfl

theorem statsStep_keys (acc : StatsAcc) (e : HistEntry) :
    (statsStep acc e).stats.map Prod.fst = acc.stats.map Prod.fst := by
  unfold statsStep
  match h : lookupStat acc.stats e.userId with
  | none => rfl
  | some st =>
    dsimp only
    split
    · dsimp only
      exact updateStat_keys acc.stats e.userId _
    · dsimp only
      rw [flushStreak_keys, updateStat_keys]

theorem finalizeStreak_keys (acc : StatsAcc) :
    (finalizeStreak acc).map Prod.fst = acc.stats.map Prod.fst := by
  unfold finalizeStreak
  match acc.currentStreak with
  | none => rfl
  | some (uid, c) =>
    dsimp only
    split
    · exact updateStat_keys acc.stats uid _
    · rfl

theorem initStats_keys (users : List UserRec) :
    (initStats users).map Prod.fst = users.map UserRec.id := by
  simp [initStats]

theorem lookupStat_eq_none (s : StatsMap) (id : String) :
    lookupStat s id = none ↔ ∀ p ∈ s, p.1 ≠ id := by
  simp [lookupStat, List.find?_eq_none]

theorem statsStep_of_lookup_none (acc : StatsAcc) (e : HistEntry)
    (h : lookupStat acc.stats e.userId = none) : statsStep acc e = acc := by
  unfold statsStep
  rw [h]

theorem foldl_statsStep_keys :
    ∀ (history : List HistEntry) (acc : StatsAcc),
      (history.foldl statsStep acc).stats.map Prod.fst =
        acc.stats.map Prod.fst
  | [], _ => rfl
  | e :: rest, acc => by
    rw [List.foldl_cons, foldl_statsStep_keys rest (statsStep acc e),
      statsStep_keys]

/-- Entries whose id has no stat record are no-ops of the scan, so filtering
them out of the history leaves the fold unchanged. -/
theorem foldl_statsStep_filter (users : List UserRec) :
    ∀ (history : List HistEntry) (acc : StatsAcc),
      acc.stats.map Prod.fst = users.map UserRec.id →
      history.foldl statsStep acc =
        (history.filter fun e => users.any fun u => u.id == e.userId).foldl
          statsStep acc
  | [], _, _ => rfl
  | e :: rest, acc, hkeys => by
    by_cases hin : (users.any fun u => u.id == e.userId) = true
    · rw [@List.filter_cons_of_pos HistEntry
          (fun e => users.any fun u => u.id == e.userId) e rest hin,
        List.foldl_cons, List.foldl_cons]
      exact foldl_statsStep_filter users rest (statsStep acc e)
        (by rw [statsStep_keys]; exact hkeys)
    · have hnone : lookupStat acc.stats e.userId = none := by
        rw [lookupStat_eq_none]
        intro p hp hpe
        have hmem : p.1 ∈ users.map UserRec.id := by
          rw [← hkeys]
          exact List.mem_map_of_mem Prod.fst hp
        simp only [List.any_eq_true, beq_iff_eq, not_exists, not_and] at hin
        obtain ⟨u, hu, hue⟩ := List.mem_map.mp hmem
        exact hin u hu (by rw [hue, hpe])
      rw [@List.filter_cons_of_neg HistEntry
          (fun e => users.any fun u => u.id == e.userId) e rest
          (by simpa using hin),
        List.foldl_cons, statsStep_of_lookup_none acc e hnone]
      exact foldl_statsStep_filter users rest acc hkeys

theorem calculateStatistics_keys (history : List HistEntry)
    (users : List UserRec) :
    (calculateStatistics history users).map Prod.fst =
      users.map UserRec.id := by
  unfold calculateStatistics
  rw [finalizeStreak_keys, foldl_statsStep_keys]
  exact initStats_keys users

/-- C6 (amended): the statistics computation produces stat entries only for
ids in the *current* users list — an id appearing in the history but not in
the users list has no stat entry — and history entries of removed
participants are skipped entirely by the scan (the whole loop body is inside
`if (stats[entry.userId])`), so they neither get counted nor break the
streaks of the remaining participants: filtering them out of the history
leaves the result unchanged. -/
theorem statistics_skip_removed (history : List HistEntry)
    (users : List UserRec) :
    (∀ id : String, id ∉ users.map UserRec.id →
      lookupStat (calculateStatistics history users) id = none) ∧
      calculateStatistics history users =
        calculateStatistics
          (history.filter fun e => users.any fun u => u.id == e.userId)
          users := by
  constructor
  · intro id hid
    rw [lookupStat_eq_none]
    intro p hp hpe
    exact hid (by
      rw [← calculateStatistics_keys history users, ← hpe]
      exact List.mem_map_of_mem Prod.fst hp)
  · unfold calculateStatistics
    rw [← foldl_statsStep_filter users history _ (initStats_keys users)]

/-- The history `[A, A, X, A, A]`, where `"X"` is an id absent from the
current users list (a removed participant). -/
def c6History : List HistEntry :=
  [⟨"A", "Alice", 1⟩, ⟨"A", "Alice", 2⟩, ⟨"X", "Xed", 3⟩,
    ⟨"A", "Alice", 4⟩, ⟨"A", "Alice", 5⟩]

/-- C6 counterexample: on the history `[A, A, X, A, A]` with only `A` in the
current users list, the id `"X"` — which appears in the history — gets *no*
stat entry, and A's reported current streak is 4: the removed participant's
entry did not break A's trailing streak (the claim would require a stat entry
for `"X"` and a current streak of 2 for A). -/
theorem removed_participant_not_reported :
    lookupStat (calculateStatistics c6History [userA]) "X" = none ∧
      lookupStat (calculateStatistics c6History [userA]) "A" =
        some { winCount := 4, selections := 4, currentStreak := 4,
               longestStreak := 4 } := by
  exact ⟨by decide, by decide⟩

/-- C6 witness: on the history `[A, A, X, A, A]` with only `A` present, the
removed id `"X"` has no stat entry (and, per the second conjunct applied to
the same inputs, its entry does not interrupt A's streak). -/
theorem statistics_skip_removed_witness :
    lookupStat (calculateStatistics c6History [userA]) "X" = none :=
  (statistics_skip_removed c6History [userA]).1 "X" (by decide)

/-- storage.js `addSpinEntry` on the history list (lines 227-243): build the
entry with `spinNumber = history.length + 1`, push it, and if the length now
exceeds 500 drop the oldest entry (`history.shift()`). -/
def addSpinEntryHistory (history : List HistEntry) (userId userName : String) :
    List HistEntry :=
  let entry : HistEntry :=
    { userId := userId, userName := userName, spinNumber := history.length + 1 }
  let h2 := history ++ [entry]
  if 500 < h2.length then h2.tail else h2

/-- The whole storage namespace object (storage.js `STORAGE_KEYS`): users,
history, settings, lastView, firstVisit, lastSelected.  Settings content is
irrelevant to the claims and kept as an opaque key-value list. -/
structure StorageData where
  users : List UserRec
  history : List HistEntry
  settings : List (String × String)
  lastView : Option String
  firstVisit : Option String
  lastSelected : Option String
deriving DecidableEq, Repr

/-- storage.js `getLastSelected` (lines 258-260). -/
def Storage.getLastSelected (d : StorageData) : Option String :=
  d.lastSelected

/-- storage.js `setLastSelected` (lines 265-267). -/
def Storage.setLastSelected (d : StorageData) (userId : String) : StorageData :=
  { d with lastSelected := some userId }

/-- storage.js `addSpinEntry` (lines 227-246) as a transition on the whole
storage state: append to the history (with the rolling window) and then
`setLastSelected(userId)`. -/
def Storage.addSpinEntry (d : StorageData) (userId userName : String) :
    StorageData :=
  Storage.setLastSelected
    { d with history := addSpinEntryHistory d.history userId userName } userId

/-- C10: `addSpinEntry` appends to the history and, as a side effect,
overwrites the stored last-selected id with the winner's id — the value the
next race's anti-repeat draw reads via `getLastSelected` — while every other
storage key (users, settings, lastView, firstVisit) is unchanged. -/
theorem addSpinEntry_frame (d : StorageData) (uid un : String) :
    Storage.getLastSelected (Storage.addSpinEntry d uid un) = some uid ∧
      (Storage.addSpinEntry d uid un).history =
        addSpinEntryHistory d.history uid un ∧
      (Storage.addSpinEntry d uid un).users = d.users ∧
      (Storage.addSpinEntry d uid un).settings = d.settings ∧
      (Storage.addSpinEntry d uid un).lastView = d.lastView ∧
      (Storage.addSpinEntry d uid un).firstVisit = d.firstVisit :=
  ⟨rfl, rfl, rfl, rfl, rfl, rfl⟩

/-- The history reached by appending `m` entries (same participant "A") to an
initially empty history. -/
def appendN : ℕ → List HistEntry
  | 0 => []
  | n + 1 => addSpinEntryHistory (appendN n) "A" "Alice"

/-- The entry carrying sequence number `k` in the `appendN` runs. -/
def seqEntry (k : ℕ) : HistEntry := ⟨"A", "Alice", k⟩

/-- Before the 500-entry cap is reached, the history after `m` appends is
exactly the entries numbered `1..m` in order. -/
theorem appendN_eq : ∀ m, m ≤ 500 → appendN m = (List.range' 1 m).map seqEntry
  | 0, _ => rfl
  | m + 1, hm => by
    have ih := appendN_eq m (by omega)
    show addSpinEntryHistory (appendN m) "A" "Alice" = _
    rw [ih]
    unfold addSpinEntryHistory
    dsimp only
    rw [if_neg (by simp; omega)]
    rw [List.range'_1_concat, List.map_append]
    simp [seqEntry, Nat.add_comm]

/-- After the 501st append the oldest entry has been evicted: the history is
exactly the entries numbered `2..501`. -/
theorem appendN_501 : appendN 501 = (List.range' 2 500).map seqEntry := by
  show addSpinEntryHistory (appendN 500) "A" "Alice" = _
  rw [appendN_eq 500 le_rfl]
  unfold addSpinEntryHistory
  dsimp only
  rw [if_pos (by simp)]
  have h1 : (List.range' 1 500).map seqEntry ++
      [{ userId := "A", userName := "Alice",
         spinNumber := ((List.range' 1 500).map seqEntry).length + 1 }] =
      (List.range' 1 501).map seqEntry := by
    conv_rhs => rw [show (501 : ℕ) = 500 + 1 from rfl,
      List.range'_1_concat, List.map_append]
    simp [seqEntry]
  rw [h1, ← List.map_tail, List.tail_range']

/-- C7: appending 501 entries to an empty history leaves exactly 500 entries;
the oldest entry (sequence number 1) has been evicted FIFO (indeed the
remaining sequence numbers are exactly `2..501`), and the newest entry is
present with the correct next sequence number 501. -/
theorem rolling_window_bound :
    (appendN 501).length = 500 ∧
      (∀ e ∈ appendN 501, e.spinNumber ≠ 1) ∧
      (appendN 501).map HistEntry.spinNumber = List.range' 2 500 ∧
      (appendN 501).getLast? = some (seqEntry 501) := by
  rw [appendN_501]
  refine ⟨by simp, ?_, ?_, ?_⟩
  · intro e he
    obtain ⟨k, hk, rfl⟩ := List.mem_map.mp he
    have := List.mem_range'_1.mp hk
    simp only [seqEntry]
    omega
  · rw [List.map_map]
    have : HistEntry.spinNumber ∘ seqEntry = id := rfl
    rw [this, List.map_id]
  · rw [List.getLast?_map, List.getLast?_range']
    rfl

/-- C8 counterexample: in the reachable history state after 501 appends, the
502nd append creates an entry with sequence number `length + 1 = 501`, but the
entry with sequence number 501 is still in the history, so the new sequence
number is *not* strictly greater than every stored one. -/
theorem seq_number_repeats_after_cap :
    (appendN 501).length + 1 = 501 ∧
      seqEntry 501 ∈ appendN 501 ∧
      ¬ (∀ e ∈ appendN 501, e.spinNumber < (appendN 501).length + 1) := by
  have hlen : (appendN 501).length = 500 := by rw [appendN_501]; simp
  have hmem : seqEntry 501 ∈ appendN 501 := by
    rw [appendN_501]
    exact List.mem_map_of_mem seqEntry (List.mem_range'_1.mpr ⟨by omega, by omega⟩)
  refine ⟨by rw [hlen], hmem, fun hall => ?_⟩
  have := hall (seqEntry 501) hmem
  rw [hlen] at this
  simp [seqEntry] at this

/-- C8 (amended): sequence numbers are 1-based and strictly monotonic while
the history is below the 500-entry cap — each append assigns
`history.length + 1`, strictly greater than every stored sequence number —
but once the rolling window is full, new entries are assigned `501` again and
again, so the new number is only `≥` every stored one (non-strict), and
strict monotonicity fails from the 502nd append on. -/
theorem seq_number_monotonic_before_cap :
    (∀ m, m ≤ 500 → ∀ e ∈ appendN m, e.spinNumber < (appendN m).length + 1) ∧
      (∀ e ∈ appendN 501, e.spinNumber ≤ (appendN 501).length + 1) := by
  constructor
  · intro m hm e he
    rw [appendN_eq m hm] at he ⊢
    obtain ⟨k, hk, rfl⟩ := List.mem_map.mp he
    have := List.mem_range'_1.mp hk
    simp only [seqEntry, List.length_map, List.length_range']
    omega
  · intro e he
    rw [appendN_501] at he ⊢
    obtain ⟨k, hk, rfl⟩ := List.mem_map.mp he
    have := List.mem_range'_1.mp hk
    simp only [seqEntry, List.length_map, List.length_range']
    omega

/-- C8 witness: the amended theorem applied to the reachable state after 3
appends and its entry number 2. -/
theorem seq_number_monotonic_witness :
    (seqEntry 2).spinNumber < (appendN 3).length + 1 :=
  seq_number_monotonic_before_cap.1 3 (by omega) (seqEntry 2) (by decide)

/-- The mutable state fields of the `Race` module object (race.js lines
115-129) read and written by the lifecycle logic.  The
`requestAnimationFrame` / `setTimeout` handles are runtime tokens; the model
keeps only their presence (`Option ℕ`).  `selectedIndex` starts at `-1` as in
the source.  DOM elements, sounds and timestamps are outside the model. -/
structure RaceModuleState where
  isRacing : Bool
  users : List UserRec
  horses : List HorseState
  raceTimeoutId : Option ℕ
  animationFrameId : Option ℕ
  selectedIndex : ℤ
  selectedUser : Option UserRec
  duration : ℚ
  raceDistance : ℚ
deriving Repr

/-- race.js `Race.cleanup` (lines 467-493): cancel both handles, reset the
in-progress flag, drop the motion states (DOM class/button changes are
outside the model). -/
def Race.cleanup (s : RaceModuleState) : RaceModuleState :=
  { s with animationFrameId := none, raceTimeoutId := none,
           isRacing := false, horses := [] }

/-- race.js `Race.completeRace` (lines 365-416): return immediately when not
racing; otherwise reset `isRacing` first, cancel the animation-frame and
safety-timeout handles, and invoke the completion callback once (the returned
count is the number of `onComplete` invocations; the sound, highlight,
history write — `Storage.addSpinEntry`, modelled on its own — and title
effects on the way are outside this state model). -/
def Race.completeRace (s : RaceModuleState) : RaceModuleState × ℕ :=
  if s.isRacing = false then (s, 0)
  else
    ({ s with isRacing := false, animationFrameId := none,
              raceTimeoutId := none }, 1)

/-- The safety-timeout callback of race.js lines 318-322: if still racing,
force-finalize through `completeRace`. -/
def Race.safetyTimeoutFire (s : RaceModuleState) : RaceModuleState × ℕ :=
  if s.isRacing = true then Race.completeRace s else (s, 0)

/-- C4: for one race (a state with `isRacing = true`), triggering finalization
through both the natural-completion path (`completeRace`, called from the
frame loop) and the safety-timeout path invokes the completion callback
exactly once, in either order: `completeRace` resets `isRacing` before
anything else and returns immediately — a no-op, zero invocations — when
`isRacing` is already false. -/
theorem finalize_exactly_once (s : RaceModuleState) (h : s.isRacing = true) :
    (Race.completeRace s).2 = 1 ∧
      (Race.completeRace s).1.isRacing = false ∧
      Race.safetyTimeoutFire (Race.completeRace s).1 =
        ((Race.completeRace s).1, 0) ∧
      Race.completeRace (Race.completeRace s).1 =
        ((Race.completeRace s).1, 0) ∧
      (Race.safetyTimeoutFire s).2 +
          (Race.completeRace (Race.safetyTimeoutFire s).1).2 = 1 := by
  simp [Race.completeRace, Race.safetyTimeoutFire, h]

/-- An idle `Race` module state (the initial field values of race.js lines
115-129). -/
def idleState : RaceModuleState :=
  { isRacing := false, users := [], horses := [], raceTimeoutId := none,
    animationFrameId := none, selectedIndex := -1, selectedUser := none,
    duration := 7000, raceDistance := 900 }

/-- A `Race` module state in the middle of a race, for the C4 witness. -/
def racingState : RaceModuleState :=
  { isRacing := true, users := demoUsers, horses := [],
    raceTimeoutId := some 1, animationFrameId := some 2, selectedIndex := 0,
    selectedUser := some ⟨"u1", "Ann", "#FF6B6B", true⟩, duration := 7000,
    raceDistance := 900 }

/-- C4 witness: finalizing the concrete racing state calls the callback
exactly once. -/
theorem finalize_exactly_once_witness : (Race.completeRace racingState).2 = 1 :=
  (finalize_exactly_once racingState rfl).1

/-- race.js `Race.race` (lines 233-323), restricted to its state-mutating
core: the re-entrancy / participant-count guard (line 234), `cleanup`, the
refresh of `users` from storage (modelled by the `enabledUsers` argument),
the second participant-count guard (line 242), then the start: set
`isRacing`, convert the configured duration to milliseconds, pick the winner
with `getRandomUserIndex`, build one `HorseState` per user (winner flag set
exactly at the drawn index; each horse's construction randomness is supplied
by `numChangesOf` / `multOf`), and arm the safety timeout.  Returns the new
state and whether the race started. -/
def Race.raceFn (s : RaceModuleState) (enabledUsers : List UserRec)
    (spinDuration : ℚ) (lastSelectedId : Option String) (draws : ℕ → ℕ)
    (numChangesOf : ℕ → ℕ) (multOf : ℕ → ℕ → ℚ) : RaceModuleState × Bool :=
  if s.isRacing = true ∨ s.users.length < 2 then (s, false)
  else
    let s2 := { Race.cleanup s with users := enabledUsers }
    if s2.users.length < 2 then (s2, false)
    else
      let duration := spinDuration * 1000
      let idx := getRandomUserIndex s2.users lastSelectedId draws
      let horses := s2.users.enum.map fun p =>
        mkHorseState (p.1 == idx) duration s.raceDistance
          (generateSpeedChanges duration (numChangesOf p.1) (multOf p.1))
      ({ s2 with
          isRacing := true,
          duration := duration,
          selectedIndex := (idx : ℤ),
          selectedUser := s2.users.get? idx,
          horses := horses,
          raceTimeoutId := some 0 }, true)

/-- race.js `Race.canRace` (lines 514-517): at least two enabled users and no
race in progress. -/
def Race.canRace (enabledUsers : List UserRec) (s : RaceModuleState) : Bool :=
  decide (2 ≤ enabledUsers.length) && !s.isRacing

/-- app.js `App.race` (lines 201-210): when `canRace` fails, show the
user-visible message (`alert("Add at least 2 users before racing!")`) and
return without touching the race module; otherwise delegate to `Race.race`.
Returns (new state, alert shown, race started). -/
def App.raceTrigger (enabledUsers : List UserRec) (s : RaceModuleState)
    (spinDuration : ℚ) (lastSelectedId : Option String) (draws : ℕ → ℕ)
    (numChangesOf : ℕ → ℕ) (multOf : ℕ → ℕ → ℚ) :
    RaceModuleState × Bool × Bool :=
  if Race.canRace enabledUsers s = false then (s, true, false)
  else
    let r := Race.raceFn s enabledUsers spinDuration lastSelectedId draws
      numChangesOf multOf
    (r.1, false, r.2)

/-- C9: triggering a race with fewer than 2 enabled participants fails with
the insufficient-participants error surfaced to the caller as the
user-visible alert: the race does not start and no state is mutated.  The
engine-level guard of race.js line 234 likewise refuses without mutating
anything when its own user list is short. -/
theorem insufficient_participants_rejected (enabledUsers : List UserRec)
    (s : RaceModuleState) (spinDuration : ℚ) (lastSelectedId : Option String)
    (draws : ℕ → ℕ) (numChangesOf : ℕ → ℕ) (multOf : ℕ → ℕ → ℚ)
    (h : enabledUsers.length < 2) :
    App.raceTrigger enabledUsers s spinDuration lastSelectedId draws
        numChangesOf multOf = (s, true, false) ∧
      (s.users.length < 2 →
        Race.raceFn s enabledUsers spinDuration lastSelectedId draws
          numChangesOf multOf = (s, false)) := by
  have hcan : Race.canRace enabledUsers s = false := by
    simp only [Race.canRace, Bool.and_eq_false_iff, decide_eq_false_iff_not]
    left
    omega
  constructor
  · unfold App.raceTrigger
    rw [if_pos hcan]
  · intro hs
    unfold Race.raceFn
    rw [if_pos (Or.inr hs)]

/-- C9 witness: with no enabled users and the idle module state, the trigger
alerts and leaves the state untouched; the engine guard also refuses. -/
theorem insufficient_participants_rejected_witness :
    App.raceTrigger [] idleState 7 none (fun _ => 0) (fun _ => 6)
        (fun _ _ => 1) = (idleState, true, false) ∧
      Race.raceFn idleState [] 7 none (fun _ => 0) (fun _ => 6)
        (fun _ _ => 1) = (idleState, false) := by
  have h := insufficient_participants_rejected [] idleState 7 none
    (fun _ => 0) (fun _ => 6) (fun _ _ => 1) (by decide)
  exact ⟨h.1, h.2 (by decide)⟩

end HorseRacing
